import Mathlib

/-!
Verification development for the Analisaham news-collection pipeline.

The Python sources are shallowly embedded as Lean definitions: dictionaries
become structures, mutable loops become folds or structural recursion, and
external effects (HTTP fetches, the headless browser, the LLM client, the
PDF library) appear as explicit oracle parameters.  Machine-level details
that the pipeline relies on (string similarity, timestamp arithmetic,
whitespace cleanup) are embedded in full from their sources.
-/

/-! ## Feed entries and the watermark diff (sources.py) -/

/-- A fetched feed entry as seen by `get_new_entries`: only its `link` field
(`entry.get("link")`, absent keys giving `None`) matters to the diff; the
`title` field stands in for the rest of the payload. -/
structure FeedEntry where
  link : Option String
  title : String := ""
deriving DecidableEq, Repr, Inhabited

/-- Embedding of `sources.get_new_entries(entries, last_top_link)`.
Returns the new-entry prefix and the new watermark.  Python truthiness of
`last_top_link` (`if not last_top_link`) makes both `None` and the empty
string take the bootstrap branch. -/
def get_new_entries (entries : List FeedEntry) (last_top_link : Option String) :
    List FeedEntry × Option String :=
  match entries with
  | [] => ([], none)
  | top :: _ =>
    let current_top_link := top.link
    if last_top_link = none ∨ last_top_link = some "" then
      (entries, current_top_link)
    else if current_top_link = last_top_link then
      ([], current_top_link)
    else
      (entries.takeWhile (fun e => e.link ≠ last_top_link), current_top_link)

theorem get_new_entries_nil (l : Option String) : get_new_entries [] l = ([], none) := rfl

/-- On a nonempty list the loop `for entry in entries: if link == last: break`
collects exactly the `takeWhile`-prefix, and this also covers the
equal-top-link branch. -/
theorem get_new_entries_eq_takeWhile (entries : List FeedEntry) (s : String)
    (hne : entries ≠ []) (hs : s ≠ "") :
    get_new_entries entries (some s) =
      (entries.takeWhile (fun e => e.link ≠ some s), entries.headD default |>.link) := by
  match entries with
  | [] => exact absurd rfl hne
  | top :: rest =>
    simp only [get_new_entries, List.headD_cons]
    have h1 : ¬ ((some s : Option String) = none ∨ (some s : Option String) = some "") := by
      simp [hs]
    rw [if_neg h1]
    by_cases htop : top.link = some s
    · rw [if_pos htop]
      simp [List.takeWhile_cons, htop]
    · rw [if_neg (by simpa [eq_comm] using htop)]

/-- C1 (amended): on a nonempty entries list the returned watermark is always the
top entry's link; a `None` *or empty-string* prior watermark returns all entries;
any other prior watermark returns exactly the prefix of entries strictly before
the first entry whose link equals it (hence all entries when no link matches,
and zero entries when the top link matches). -/
theorem get_new_entries_correct (entries : List FeedEntry) (last : Option String)
    (h : entries ≠ []) :
    (get_new_entries entries last).2 = (entries.headD default).link ∧
    ((last = none ∨ last = some "") → (get_new_entries entries last).1 = entries) ∧
    (∀ s : String, last = some s → s ≠ "" →
      (get_new_entries entries last).1 = entries.takeWhile (fun e => e.link ≠ some s)) := by
  match entries with
  | [] => exact absurd rfl h
  | top :: rest =>
    refine ⟨?_, ?_, ?_⟩
    · by_cases hb : last = none ∨ last = some ""
      · simp [get_new_entries, hb]
      · rcases last with _ | s
        · simp at hb
        · have hs : s ≠ "" := fun he => hb (Or.inr (by rw [he]))
          rw [get_new_entries_eq_takeWhile (top :: rest) s (by simp) hs]
    · intro hb
      simp [get_new_entries, hb]
    · intro s hlast hs
      subst hlast
      rw [get_new_entries_eq_takeWhile (top :: rest) s (by simp) hs]

/-- C1 counterexample: with a stored watermark that is the *empty string* and a
feed that contains an empty-link entry, the code returns *all* entries (Python's
`if not last_top_link` treats `""` as "no watermark"), while the claim's
prefix-before-the-matching-link reading demands only the first entry. -/
theorem get_new_entries_empty_string_counterexample :
    (get_new_entries [⟨some "a", "t1"⟩, ⟨some "", "t2"⟩] (some "")).1 ≠
      List.takeWhile (fun e => e.link ≠ some "")
        [⟨some "a", "t1"⟩, ⟨some "", "t2"⟩] := by
  decide

/-- Witness for `get_new_entries_correct` at a concrete feed. -/
theorem get_new_entries_correct_witness :
    (get_new_entries [⟨some "a", "x"⟩, ⟨some "b", "y"⟩] (some "b")).1 =
      List.takeWhile (fun e => e.link ≠ some "b") [⟨some "a", "x"⟩, ⟨some "b", "y"⟩] :=
  (get_new_entries_correct [⟨some "a", "x"⟩, ⟨some "b", "y"⟩] (some "b")
    (by decide)).2.2 "b" rfl (by decide)

/-! ## String similarity (helpers.similarity, via difflib.SequenceMatcher)

`helpers.similarity(a, b)` lower-cases both strings and returns
`SequenceMatcher(None, a, b).ratio()`.  The matcher is embedded in full:
the `b2j` index with the autojunk "popular element" filter, the
dynamic-programming longest-match search with its two extension loops, and
the recursive matched-block total.  The ratio is computed over `ℚ`; the
comparison against the threshold `0.75` agrees with CPython's float
computation because `2*M/T` compares against `3/4` exactly when `8*M`
compares against `3*T` (integers far below the range where doubles round).
-/

/-- `b2j` before the autojunk filter: the ascending list of positions of `c`
in `b`. -/
def b2jAll (b : List Char) (c : Char) : List Nat :=
  (List.range b.length).filter (fun j => b.getD j 'b' = c)

/-- Autojunk: for `len(b) >= 200`, elements occurring more than
`len(b) // 100 + 1` times are "popular" and dropped from the index. -/
def bPopular (b : List Char) : List Char :=
  if 200 ≤ b.length then
    let ntest := b.length / 100 + 1
    b.dedup.filter (fun c => ntest < (b2jAll b c).length)
  else []

/-- The `b2j` index with popular elements removed (junk is `None` here, so
there is no junk set). -/
def b2jOf (b : List Char) (c : Char) : List Nat :=
  if c ∈ bPopular b then [] else b2jAll b c

/-- One row (`for j in b2j.get(a[i], [])`) of `find_longest_match`'s scan:
threads the `newj2len` map and the best `(i', j', size)` triple.  The
`j = 0` guard models Python's `j2len.get(j - 1, 0)` looking up key `-1`. -/
def flmRow (j2len : Nat → Nat) (i : Nat) (js : List Nat)
    (best : Nat × Nat × Nat) : (Nat → Nat) × (Nat × Nat × Nat) :=
  js.foldl
    (fun (st : (Nat → Nat) × (Nat × Nat × Nat)) j =>
      let k := (if j = 0 then 0 else j2len (j - 1)) + 1
      let newj2len := fun x => if x = j then k else st.1 x
      let best' := if st.2.2.2 < k then (i + 1 - k, j + 1 - k, k) else st.2
      (newj2len, best'))
    ((fun _ => 0), best)

/-- The dynamic-programming core of `find_longest_match` over
`a[alo:ahi]`, `b[blo:bhi]` (`b` enters through its index `b2jf`). -/
def flmCore (a : List Char) (b2jf : Char → List Nat) (alo ahi blo bhi : Nat) :
    Nat × Nat × Nat :=
  let step := fun (st : (Nat → Nat) × (Nat × Nat × Nat)) (i : Nat) =>
    let js := ((b2jf (a.getD i 'a')).filter (fun j => blo ≤ j)).takeWhile (fun j => j < bhi)
    flmRow st.1 i js st.2
  ((List.range' alo (ahi - alo)).foldl step ((fun _ => 0), (alo, blo, 0))).2

/-- `while besti > alo and bestj > blo and a[besti-1] == b[bestj-1]` extension
(the junk set is empty, so the non-junk condition is vacuous). -/
def extendLeftGo (a b : List Char) (alo blo : Nat) :
    Nat → Nat × Nat × Nat → Nat × Nat × Nat
  | 0, st => st
  | fuel + 1, (bi, bj, bs) =>
    if alo < bi ∧ blo < bj ∧ a.getD (bi - 1) 'a' = b.getD (bj - 1) 'b' then
      extendLeftGo a b alo blo fuel (bi - 1, bj - 1, bs + 1)
    else (bi, bj, bs)

/-- `while besti+bestsize < ahi and bestj+bestsize < bhi and a[...] == b[...]`
extension. -/
def extendRightGo (a b : List Char) (ahi bhi bi bj : Nat) :
    Nat → Nat → Nat
  | 0, bs => bs
  | fuel + 1, bs =>
    if bi + bs < ahi ∧ bj + bs < bhi ∧ a.getD (bi + bs) 'a' = b.getD (bj + bs) 'b' then
      extendRightGo a b ahi bhi bi bj fuel (bs + 1)
    else bs

/-- `SequenceMatcher.find_longest_match` (junk-free; the final
matching-junk extension loop is a no-op with an empty junk set). -/
def find_longest_match (a b : List Char) (b2jf : Char → List Nat)
    (alo ahi blo bhi : Nat) : Nat × Nat × Nat :=
  let core := flmCore a b2jf alo ahi blo bhi
  let left := extendLeftGo a b alo blo core.1 core
  let bs := extendRightGo a b ahi bhi left.1 left.2.1 ahi left.2.2
  (left.1, left.2.1, bs)

/-- Total size of all matching blocks (`get_matching_blocks` recursion,
queue order is irrelevant for the total).  Fuel decreases strictly because
each recursive call covers a strictly smaller pair of intervals. -/
def matchedTotalGo (a b : List Char) (b2jf : Char → List Nat) :
    Nat → Nat → Nat → Nat → Nat → Nat
  | 0, _, _, _, _ => 0
  | fuel + 1, alo, ahi, blo, bhi =>
    let m := find_longest_match a b b2jf alo ahi blo bhi
    if m.2.2 = 0 then 0
    else
      matchedTotalGo a b b2jf fuel alo m.1 blo m.2.1 + m.2.2 +
        matchedTotalGo a b b2jf fuel (m.1 + m.2.2) ahi (m.2.1 + m.2.2) bhi

/-- `str.lower()` (ASCII model of Python's Unicode lowercasing; every title
in this development is ASCII). -/
def pyLower (s : String) : List Char := s.data.map Char.toLower

/-- Total matched size `M` over both full sequences, with ample fuel (the
recursion depth is bounded by the total interval size). -/
def matchedTotal (a b : List Char) : Nat :=
  matchedTotalGo a b (b2jOf b) (a.length + b.length + 1) 0 a.length 0 b.length

/-- `SequenceMatcher.ratio()`: `2.0 * matches / (len(a) + len(b))`, and `1.0`
for two empty sequences. -/
def smRatio (a b : List Char) : ℚ :=
  if a.length + b.length = 0 then 1
  else (2 * matchedTotal a b : ℚ) / (a.length + b.length : ℚ)

/-- Embedding of `helpers.similarity(a, b)`: the matcher ratio of the
lower-cased strings. -/
def similarity (a b : String) : ℚ := smRatio (pyLower a) (pyLower b)

/-- `config.SIMILARITY_THRESHOLD = 0.75` (exact in binary floating point). -/
def SIMILARITY_THRESHOLD : ℚ := 3 / 4

/-- Executable form of the dedup gate's comparison
`similarity(title, existing) >= SIMILARITY_THRESHOLD`: over the naturals,
`2M/T >= 3/4` is `3T <= 8M` (and `T = 0` gives ratio `1.0`). -/
def similarGeThreshold (a b : String) : Bool :=
  let x := pyLower a
  let y := pyLower b
  let t := x.length + y.length
  t = 0 ∨ 3 * t ≤ 8 * matchedTotal x y

/-- The integer comparison decides exactly the rational (float) comparison
the source performs. -/
theorem similarGeThreshold_iff (a b : String) :
    similarGeThreshold a b = true ↔ SIMILARITY_THRESHOLD ≤ similarity a b := by
  unfold similarGeThreshold similarity smRatio SIMILARITY_THRESHOLD
  set x := pyLower a
  set y := pyLower b
  by_cases h0 : x.length + y.length = 0
  · simp [h0]
    norm_num
  · have hq : (0 : ℚ) < (x.length : ℚ) + (y.length : ℚ) := by
      exact_mod_cast Nat.pos_of_ne_zero h0
    simp only [if_neg h0, decide_eq_true_eq]
    rw [div_le_div_iff₀ (by norm_num : (0 : ℚ) < 4) hq]
    constructor
    · rintro (h | h)
      · exact absurd h h0
      · have hq2 : (3 : ℚ) * ((x.length : ℚ) + (y.length : ℚ)) ≤
            8 * (matchedTotal x y : ℚ) := by exact_mod_cast h
        linarith
    · intro h
      refine Or.inr ?_
      have hq2 : (3 : ℚ) * ((x.length : ℚ) + (y.length : ℚ)) ≤
          8 * (matchedTotal x y : ℚ) := by linarith
      exact_mod_cast hq2

example : similarGeThreshold "abcd" "abcd" = true := by decide
example : similarGeThreshold "abcd" "abce" = true := by decide
example : similarGeThreshold "aaaa" "zzzz" = false := by decide
example : similarGeThreshold "AbCd" "aBcE" = true := by decide
example : similarGeThreshold "abcd" "axyz" = false := by decide

/-! ## Timestamp normalization (helpers.parse_published_date)

Dates are represented by civil fields plus an optional UTC offset in
seconds (`datetime` naive vs aware).  Epoch arithmetic uses the standard
civil-from-days / days-from-civil algorithms; formatting mirrors
`datetime.isoformat()` for an aware UTC datetime with whole seconds.
-/

/-- Days since 1970-01-01 for a civil date (proleptic Gregorian). -/
def daysFromCivil (y : Int) (m d : Nat) : Int :=
  let y' : Int := if m ≤ 2 then y - 1 else y
  let era : Int := Int.fdiv y' 400
  let yoe : Nat := (y' - era * 400).toNat
  let mp : Nat := if 2 < m then m - 3 else m + 9
  let doy : Nat := (153 * mp + 2) / 5 + d - 1
  let doe : Nat := yoe * 365 + yoe / 4 - yoe / 100 + doy
  era * 146097 + (doe : Int) - 719468

/-- Civil date from days since 1970-01-01. -/
def civilFromDays (days : Int) : Int × Nat × Nat :=
  let z : Int := days + 719468
  let era : Int := Int.fdiv z 146097
  let doe : Nat := (z - era * 146097).toNat
  let yoe : Nat := (doe - doe / 1460 + doe / 36524 - doe / 146096) / 365
  let doy : Nat := doe - (365 * yoe + yoe / 4 - yoe / 100)
  let mp : Nat := (5 * doy + 2) / 153
  let d : Nat := doy - (153 * mp + 2) / 5 + 1
  let m : Nat := if mp < 10 then mp + 3 else mp - 9
  let y : Int := (yoe : Int) + era * 400
  (if m ≤ 2 then y + 1 else y, m, d)

def pad2 (n : Nat) : String := if n < 10 then "0" ++ toString n else toString n

def pad4 (n : Nat) : String :=
  if n < 10 then "000" ++ toString n
  else if n < 100 then "00" ++ toString n
  else if n < 1000 then "0" ++ toString n
  else toString n

/-- `datetime.fromtimestamp(secs, tz=utc).isoformat()` for whole seconds. -/
def isoUtcOfEpoch (secs : Int) : String :=
  let days := Int.fdiv secs 86400
  let sod := (secs - days * 86400).toNat
  let c := civilFromDays days
  pad4 c.1.toNat ++ "-" ++ pad2 c.2.1 ++ "-" ++ pad2 c.2.2 ++ "T" ++
    pad2 (sod / 3600) ++ ":" ++ pad2 (sod % 3600 / 60) ++ ":" ++ pad2 (sod % 60) ++
    "+00:00"

example : isoUtcOfEpoch 0 = "1970-01-01T00:00:00+00:00" := by decide
example : isoUtcOfEpoch 1714532400 = "2024-05-01T03:00:00+00:00" := by decide

/-- A parsed `datetime`: civil fields plus optional tz offset in seconds. -/
structure PDT where
  year : Nat
  month : Nat
  day : Nat
  hour : Nat
  minute : Nat
  second : Nat
  off : Option Int := none
deriving DecidableEq, Repr

/-- The naive epoch of the civil fields (as if they were UTC). -/
def naiveEpochDT (dt : PDT) : Int :=
  daysFromCivil (dt.year : Int) dt.month dt.day * 86400 +
    (dt.hour * 3600 + dt.minute * 60 + dt.second : Nat)

def digit2 : List Char → Option (Nat × List Char)
  | c1 :: c2 :: rest =>
    if c1.isDigit ∧ c2.isDigit then
      some (10 * (c1.toNat - 48) + (c2.toNat - 48), rest)
    else none
  | _ => none

def digit4 : List Char → Option (Nat × List Char)
  | c1 :: c2 :: c3 :: c4 :: rest =>
    if c1.isDigit ∧ c2.isDigit ∧ c3.isDigit ∧ c4.isDigit then
      some (1000 * (c1.toNat - 48) + 100 * (c2.toNat - 48) +
        10 * (c3.toNat - 48) + (c4.toNat - 48), rest)
    else none
  | _ => none

def expectChar (c : Char) : List Char → Option (List Char)
  | x :: rest => if x = c then some rest else none
  | [] => none

/-- A tz-offset suffix: nothing (naive), `Z`, or `±HH:MM`. -/
def parseOffsetSuffix : List Char → Option (Option Int)
  | [] => some none
  | ['Z'] => some (some 0)
  | '+' :: rest => do
    let (h, rest) ← digit2 rest
    let rest ← expectChar ':' rest
    let (m, rest) ← digit2 rest
    if rest = [] then some (some ((h * 3600 + m * 60 : Nat) : Int)) else none
  | '-' :: rest => do
    let (h, rest) ← digit2 rest
    let rest ← expectChar ':' rest
    let (m, rest) ← digit2 rest
    if rest = [] then some (some (-((h * 3600 + m * 60 : Nat) : Int))) else none
  | _ => none

/-- Model of `dateutil.parser.parse` (an external library) restricted to the
timestamp shapes this pipeline receives and the spec describes:
`YYYY-MM-DD{T,space}HH:MM:SS` with optional `Z` or `±HH:MM` offset.  The
`strptime` fallback format list in the source parses the same shapes. -/
def parseDateString (s : String) : Option PDT := do
  let l := s.data
  let (y, l) ← digit4 l
  let l ← expectChar '-' l
  let (mo, l) ← digit2 l
  let l ← expectChar '-' l
  let (d, l) ← digit2 l
  let l ← match l with
    | 'T' :: rest => some rest
    | ' ' :: rest => some rest
    | _ => none
  let (h, l) ← digit2 l
  let l ← expectChar ':' l
  let (mi, l) ← digit2 l
  let l ← expectChar ':' l
  let (se, l) ← digit2 l
  let off ← parseOffsetSuffix l
  some ⟨y, mo, d, h, mi, se, off⟩

example : parseDateString "2024-05-01T10:00:00+07:00" =
    some ⟨2024, 5, 1, 10, 0, 0, some 25200⟩ := by decide
example : parseDateString "2024-05-01 10:00:00" =
    some ⟨2024, 5, 1, 10, 0, 0, none⟩ := by decide

def natOfDigits (l : List Char) : Nat :=
  l.foldl (fun acc c => 10 * acc + (c.toNat - 48)) 0

/-- Match of `re.search(r"/Date\((\d+)\)/", raw)` at the head of `l`. -/
def msEpochAt (l : List Char) : Option Nat :=
  if "/Date(".data.isPrefixOf l then
    let rest := l.drop 6
    let ds := rest.takeWhile Char.isDigit
    if ds = [] then none
    else
      match rest.dropWhile Char.isDigit with
      | ')' :: '/' :: _ => some (natOfDigits ds)
      | _ => none
  else none

/-- `re.search` for the Microsoft `/Date(<ms>)/` epoch: first match anywhere. -/
def findMsEpoch : List Char → Option Nat
  | [] => none
  | c :: rest =>
    match msEpochAt (c :: rest) with
    | some n => some n
    | none => findMsEpoch rest

example : findMsEpoch "/Date(1714532400000)/".data = some 1714532400000 := by decide

/-- A raw feed entry as `parse_published_date` reads it: the `published`,
`updated` and `created` string fields and feedparser's `published_parsed`
struct_time (modelled by its UTC epoch, `calendar.timegm`). -/
structure FPEntry where
  published : String := ""
  updated : String := ""
  created : String := ""
  published_parsed : Option Int := none
deriving DecidableEq, Repr

/-- The final timezone-fixing block of `parse_published_date`: aware
datetimes convert by their own offset; naive ones are assumed WIB (UTC+7)
for `idx_api`/`stockbit_api` and UTC otherwise. -/
def normalizeParsedDate (dt : PDT) (source_type : String) : String :=
  match dt.off with
  | some off => isoUtcOfEpoch (naiveEpochDT dt - off)
  | none =>
    if source_type = "idx_api" ∨ source_type = "stockbit_api" then
      isoUtcOfEpoch (naiveEpochDT dt - 25200)
    else
      isoUtcOfEpoch (naiveEpochDT dt)

/-- Embedding of `helpers.parse_published_date(entry, source_type)`.
`nowIso` stands for `datetime.now(utc).isoformat()` in the fallback
branches.  The Microsoft epoch is divided by 1000 (whole milliseconds; the
float fraction is dropped as in every feed this source handles). -/
def parse_published_date (entry : FPEntry) (source_type : String) (nowIso : String) :
    String :=
  let raw := if source_type = "stockbit_api" then entry.created
             else if entry.published ≠ "" then entry.published else entry.updated
  match entry.published_parsed with
  | some ts => isoUtcOfEpoch ts
  | none =>
    if raw = "" ∨ raw = "0000-00-00 00:00:00" then nowIso
    else
      match (if source_type = "idx_api" then findMsEpoch raw.data else none) with
      | some ms => isoUtcOfEpoch ((ms / 1000 : Nat) : Int)
      | none =>
        match parseDateString raw with
        | none => nowIso
        | some dt => normalizeParsedDate dt source_type

/-- C3: an explicit-offset timestamp maps to the equivalent UTC instant
(`2024-05-01T10:00:00+07:00` → `2024-05-01T03:00:00+00:00`); naive
`idx_api`/`stockbit_api` timestamps are read as UTC+7 local time; naive RSS
timestamps are read as already UTC; and an `idx_api` `/Date(<ms>)/` epoch
converts from that epoch — stated both pointwise on the normalizer and
end-to-end on the claim's example strings. -/
theorem parse_published_date_correct (dt : PDT) (st now : String) (off : Int) :
    (dt.off = some off → normalizeParsedDate dt st = isoUtcOfEpoch (naiveEpochDT dt - off)) ∧
    (dt.off = none → (st = "idx_api" ∨ st = "stockbit_api") →
      normalizeParsedDate dt st = isoUtcOfEpoch (naiveEpochDT dt - 25200)) ∧
    (dt.off = none → st ≠ "idx_api" → st ≠ "stockbit_api" →
      normalizeParsedDate dt st = isoUtcOfEpoch (naiveEpochDT dt)) ∧
    parse_published_date { published := "2024-05-01T10:00:00+07:00" } "rss" now =
      "2024-05-01T03:00:00+00:00" ∧
    parse_published_date { created := "2024-05-01 10:00:00" } "stockbit_api" now =
      "2024-05-01T03:00:00+00:00" ∧
    parse_published_date { published := "2024-05-01 10:00:00" } "idx_api" now =
      "2024-05-01T03:00:00+00:00" ∧
    parse_published_date { published := "2024-05-01 10:00:00" } "rss" now =
      "2024-05-01T10:00:00+00:00" ∧
    parse_published_date { published := "/Date(1714532400000)/" } "idx_api" now =
      "2024-05-01T03:00:00+00:00" := by
  refine ⟨?_, ?_, ?_, rfl, rfl, rfl, rfl, rfl⟩
  · intro hoff
    unfold normalizeParsedDate
    rw [hoff]
  · intro hoff hst
    unfold normalizeParsedDate
    rw [hoff]
    simp only [hst, if_pos]
  · intro hoff h1 h2
    unfold normalizeParsedDate
    rw [hoff]
    rw [if_neg (by simp [h1, h2])]

/-- Witness for `parse_published_date_correct`: the naive-WIB branch at a
concrete naive datetime. -/
theorem parse_published_date_correct_witness :
    normalizeParsedDate ⟨2024, 5, 1, 10, 0, 0, none⟩ "idx_api" =
      isoUtcOfEpoch (naiveEpochDT ⟨2024, 5, 1, 10, 0, 0, none⟩ - 25200) :=
  (parse_published_date_correct ⟨2024, 5, 1, 10, 0, 0, none⟩ "idx_api" "" 0).2.1
    rfl (Or.inl rfl)

/-! ## News store and the dedup gate (store.py, `JSONStore`) -/

/-- A persisted news record, restricted to the fields the verified operations
read: `url` (dedup key), `title` (similarity gate), `published_at`
(ordering), `id` (lookup key). -/
structure NewsRecord where
  title : String
  url : String
  published_at : String := ""
  id : String := ""
deriving DecidableEq, Repr, Inhabited

/-- `helpers.generate_id(url)`: the first 8 hex characters of the URL's MD5.
The digest itself comes from the external `hashlib`; it is modelled as the
URL, keeping exactly the properties the pipeline relies on — determinism and
(collision-free-in-practice) injectivity. -/
def generate_id (url : String) : String := url

/-- The JSON file store, modelled as the list of stored records in write
order (each record one file under `news/`). -/
structure JSONStore where
  records : List NewsRecord := []
deriving DecidableEq, Repr, Inhabited

/-- `get_all_urls` (a Python set; membership is what is used). -/
def JSONStore.get_all_urls (s : JSONStore) : List String := s.records.map (·.url)

def JSONStore.get_all_titles (s : JSONStore) : List String := s.records.map (·.title)

/-- `is_duplicate_url`: case-sensitive exact membership. -/
def JSONStore.is_duplicate_url (s : JSONStore) (url : String) : Bool :=
  s.get_all_urls.contains url

/-- `is_redundant_title` (the matched title, used only for logging, is
dropped): some stored title has similarity ratio ≥ the threshold. -/
def JSONStore.is_redundant_title (s : JSONStore) (title : String) : Bool :=
  s.get_all_titles.any (fun t => similarGeThreshold title t)

/-- Embedding of `JSONStore.save`: reject on duplicate URL, then on redundant
title, else write one record whose `id` is the URL fingerprint. -/
def JSONStore.save (s : JSONStore) (r : NewsRecord) : Bool × JSONStore :=
  if s.is_duplicate_url r.url then (false, s)
  else if s.is_redundant_title r.title then (false, s)
  else (true, ⟨s.records ++ [{ r with id := generate_id r.url }]⟩)

/-- Embedding of `JSONStore.get_by_id`: exact id hit in the id-keyed cache
(`dict`: for a repeated id the later file wins), else a unique
`startswith`-prefix match among the keys. -/
def JSONStore.get_by_id (s : JSONStore) (news_id : String) : Option NewsRecord :=
  match s.records.reverse.find? (fun r => r.id == news_id) with
  | some r => some r
  | none =>
    let keys := (s.records.map (·.id)).dedup
    match keys.filter (fun k => k.startsWith news_id) with
    | [k] => s.records.reverse.find? (fun r => r.id == k)
    | _ => none

theorem JSONStore.save_of_dup (s : JSONStore) (r : NewsRecord)
    (h : s.is_duplicate_url r.url = true) : s.save r = (false, s) := by
  unfold JSONStore.save
  rw [if_pos h]

theorem JSONStore.save_of_red (s : JSONStore) (r : NewsRecord)
    (hd : ¬ s.is_duplicate_url r.url = true) (hr : s.is_redundant_title r.title = true) :
    s.save r = (false, s) := by
  unfold JSONStore.save
  rw [if_neg hd, if_pos hr]

theorem JSONStore.save_of_fresh (s : JSONStore) (r : NewsRecord)
    (hd : ¬ s.is_duplicate_url r.url = true) (hr : ¬ s.is_redundant_title r.title = true) :
    s.save r = (true, ⟨s.records ++ [{ r with id := generate_id r.url }]⟩) := by
  unfold JSONStore.save
  rw [if_neg hd, if_neg hr]

/-- C2: `save` rejects — returning `False` with the store untouched — exactly
when the record's URL is already stored (case-sensitive) or some stored title
is ≥ 0.75-similar (case-insensitive); otherwise it appends exactly the one new
record and returns `True`; and re-submitting the same URL in a later cycle is
rejected, leaving exactly one stored record with that URL. -/
theorem JSONStore.save_correct (s : JSONStore) (r : NewsRecord) :
    ((s.save r).1 = false ↔
      r.url ∈ s.get_all_urls ∨
        ∃ t ∈ s.get_all_titles, SIMILARITY_THRESHOLD ≤ similarity r.title t) ∧
    ((s.save r).1 = false → (s.save r).2 = s) ∧
    ((s.save r).1 = true →
      (s.save r).2.records = s.records ++ [{ r with id := generate_id r.url }]) ∧
    (∀ r2 : NewsRecord, r2.url = r.url → (s.save r).1 = true →
      ((s.save r).2.save r2).1 = false ∧
      ((s.save r).2.save r2).2 = (s.save r).2 ∧
      ((s.save r).2.records.filter (fun x => x.url = r.url)).length = 1) := by
  have hmem : ∀ (l : List String) (u : String), l.contains u = true ↔ u ∈ l := by
    intro l u
    exact List.elem_iff
  have hsim : ∀ (l : List String) (t : String),
      l.any (fun x => similarGeThreshold t x) = true ↔
        ∃ x ∈ l, SIMILARITY_THRESHOLD ≤ similarity t x := by
    intro l t
    rw [List.any_eq_true]
    constructor
    · rintro ⟨x, hx, hsx⟩
      exact ⟨x, hx, (similarGeThreshold_iff t x).mp hsx⟩
    · rintro ⟨x, hx, hsx⟩
      exact ⟨x, hx, (similarGeThreshold_iff t x).mpr hsx⟩
  by_cases hd : s.is_duplicate_url r.url
  · have hsave : s.save r = (false, s) := JSONStore.save_of_dup s r hd
    refine ⟨?_, ?_, ?_, ?_⟩
    · rw [hsave]
      exact ⟨fun _ => Or.inl ((hmem _ _).mp hd), fun _ => rfl⟩
    · intro _
      rw [hsave]
    · intro habs
      rw [hsave] at habs
      exact absurd habs (by simp)
    · intro r2 _ habs
      rw [hsave] at habs
      exact absurd habs (by simp)
  · by_cases hr : s.is_redundant_title r.title
    · have hsave : s.save r = (false, s) := JSONStore.save_of_red s r hd hr
      refine ⟨?_, ?_, ?_, ?_⟩
      · rw [hsave]
        exact ⟨fun _ => Or.inr ((hsim _ _).mp hr), fun _ => rfl⟩
      · intro _
        rw [hsave]
      · intro habs
        rw [hsave] at habs
        exact absurd habs (by simp)
      · intro r2 _ habs
        rw [hsave] at habs
        exact absurd habs (by simp)
    · have hsave : s.save r = (true, ⟨s.records ++ [{ r with id := generate_id r.url }]⟩) :=
        JSONStore.save_of_fresh s r hd hr
      refine ⟨?_, ?_, ?_, ?_⟩
      · rw [hsave]
        constructor
        · intro habs
          exact absurd habs (by simp)
        · rintro (h | h)
          · exact absurd ((hmem _ _).mpr h) hd
          · exact absurd ((hsim s.get_all_titles r.title).mpr h) hr
      · intro habs
        rw [hsave] at habs
        exact absurd habs (by simp)
      · intro _
        rw [hsave]
      · intro r2 hurl _
        have hdup2 : ((s.save r).2).is_duplicate_url r2.url = true := by
          rw [hsave]
          unfold JSONStore.is_duplicate_url JSONStore.get_all_urls
          rw [hmem]
          simp [hurl]
        have hsave2 : (s.save r).2.save r2 = (false, (s.save r).2) :=
          JSONStore.save_of_dup _ r2 hdup2
        refine ⟨by rw [hsave2], by rw [hsave2], ?_⟩
        rw [hsave]
        have hzero : s.records.filter (fun x => decide (x.url = r.url)) = [] := by
          rw [List.filter_eq_nil_iff]
          intro x hx hurlx
          apply hd
          unfold JSONStore.is_duplicate_url JSONStore.get_all_urls
          rw [hmem]
          simp only [decide_eq_true_eq] at hurlx
          exact hurlx ▸ List.mem_map_of_mem (fun rr => rr.url) hx
        simp only [List.filter_append, hzero, List.nil_append]
        simp [List.filter]

/-- Witness for `JSONStore.save_correct`: a fresh URL with a dissimilar title
is inserted once, and a second submission of the same URL bounces. -/
theorem JSONStore.save_correct_witness :
    let s0 : JSONStore := ⟨[{ title := "zzzz", url := "u1", id := "u1" }]⟩
    let r : NewsRecord := { title := "abcd", url := "u2" }
    ((s0.save r).2.save r).1 = false ∧
    ((s0.save r).2.save r).2 = (s0.save r).2 ∧
    ((s0.save r).2.records.filter (fun x => x.url = r.url)).length = 1 :=
  (JSONStore.save_correct ⟨[{ title := "zzzz", url := "u1", id := "u1" }]⟩
    { title := "abcd", url := "u2" }).2.2.2 { title := "abcd", url := "u2" } rfl
    (by decide)

/-! ## The LLM relevance filter (llm.py, `_run_filter`)

The Groq chat call and `json.loads` are external; `_run_filter` is embedded
from the parsed JSON value on.  `Option JVal` is the parse outcome (`none` =
`json.loads` raised, caught by the `except` fallback).  A `TypeError` inside
the loop (a non-integer `index` makes `r.get("index", 0) - 1` raise) is also
caught by the same fallback, returning the whole batch.
-/

/-- A parsed JSON value.  Numbers are integers (every `index` this filter
reads is a JSON integer; a fractional number would raise on list indexing
and take the exception fallback). -/
inductive JVal where
  | null
  | bool (b : Bool)
  | num (n : Int)
  | str (s : String)
  | arr (elems : List JVal)
  | obj (fields : List (String × JVal))
deriving Inhabited

/-- Python dict lookup on a parsed object (`json.loads` keeps the last
occurrence of a duplicated key). -/
def jLookup (rf : List (String × JVal)) (key : String) : Option JVal :=
  rf.reverse.lookup key

/-- `d.get(key, dflt)`. -/
def jGetD (rf : List (String × JVal)) (key : String) (dflt : JVal) : JVal :=
  (jLookup rf key).getD dflt

/-- Python truthiness of a JSON value. -/
def jTruthy : JVal → Bool
  | JVal.null => false
  | JVal.bool b => b
  | JVal.num n => n != 0
  | JVal.str s => s ≠ ""
  | JVal.arr l => !l.isEmpty
  | JVal.obj f => !f.isEmpty

/-- `r.get("index", 0) - 1` succeeds only on ints (Python `bool` is an
`int`: `True` is `1`, `False` is `0`); other values raise `TypeError`. -/
def jToIntIndex : JVal → Option Int
  | JVal.num n => some n
  | JVal.bool b => some (if b then 1 else 0)
  | _ => none

/-- `config.VALID_CATEGORIES`. -/
def VALID_CATEGORIES : List String :=
  ["Market", "Macro", "Commodity", "Sectoral", "Corporate Action", "Disclosure"]

/-- `config.VALID_SENTIMENTS`. -/
def VALID_SENTIMENTS : List String := ["bullish", "bearish", "neutral"]

/-- The fetch-time fields of a parsed entry dict — everything the filter
loop reads but never writes. -/
structure EntryCore where
  title : String := ""
  url : String := ""
  published_at : String := ""
  source_type : String := ""
  rss_summary : String := ""
deriving DecidableEq, Repr, Inhabited

/-- The `_filter_*` annotations the loop writes into the selected entry
dicts (absent keys are `none`/`false`). -/
structure FilterAnn where
  filter_category : Option JVal := none
  filter_sub_category : Option JVal := none
  is_lapkeu : Bool := false
  filter_sentiment : Option String := none
  filter_reason : Option JVal := none
deriving Inhabited

/-- An entry dict as the filter sees it: fetched payload plus annotations. -/
structure LEntry where
  core : EntryCore
  ann : FilterAnn := {}
deriving Inhabited

/-- The annotation block of `_run_filter`'s loop body: category /
sub-category / lapkeu flag / sentiment / reason assignments, with the
validity fallbacks of the source. -/
def annotate (e : LEntry) (rf : List (String × JVal)) (is_idx : Bool) : LEntry :=
  let ann1 :=
    if is_idx then
      let subc := jGetD rf "sub_category" (JVal.str "lainnya")
      let sub := jGetD rf "sub_category" (JVal.str "")
      { e.ann with
        filter_category := some (JVal.str "Disclosure")
        filter_sub_category := some subc
        is_lapkeu :=
          match sub with
          | JVal.str s =>
            if s = "lapkeu_tahunan" ∨ s = "lapkeu_kuartal" then true else e.ann.is_lapkeu
          | _ => e.ann.is_lapkeu }
    else
      let cat0 := jGetD rf "category" (JVal.str "Market")
      let cat := match cat0 with
        | JVal.str s => if VALID_CATEGORIES.contains s then cat0 else JVal.str "Market"
        | _ => JVal.str "Market"
      { e.ann with filter_category := some cat }
  let sentiment := match jGetD rf "sentiment" (JVal.str "neutral") with
    | JVal.str s => if VALID_SENTIMENTS.contains s then s else "neutral"
    | _ => "neutral"
  { e with
    ann := { ann1 with
      filter_sentiment := some sentiment
      filter_reason := some (jGetD rf "reason" (JVal.str "")) } }

theorem annotate_core (e : LEntry) (rf : List (String × JVal)) (is_idx : Bool) :
    (annotate e rf is_idx).core = e.core := rfl

/-- The `for r in results_list` loop: skips non-dict items, selects
`entries[idx]` for in-range relevant items, and aborts (`none` = the caught
`TypeError` of a non-integer index) otherwise. -/
def processResults (entries : List LEntry) (is_idx : Bool) :
    List JVal → List LEntry → Option (List LEntry)
  | [], acc => some acc
  | r :: rest, acc =>
    match r with
    | JVal.obj rf =>
      match jToIntIndex (jGetD rf "index" (JVal.num 0)) with
      | none => none
      | some n =>
        let idx : Int := n - 1
        if 0 ≤ idx ∧ idx < (entries.length : Int) ∧
            jTruthy (jGetD rf "relevant" (JVal.bool false)) = true then
          processResults entries is_idx rest
            (acc ++ [annotate (entries.getD idx.toNat default) rf is_idx])
        else
          processResults entries is_idx rest acc
    | _ => processResults entries is_idx rest acc

/-- Embedding of `llm._run_filter` from the parsed response on:
`none` = `json.loads` raised; a non-`obj` response makes `data.get` raise;
a non-list `results` takes the explicit shape fallback; the loop returning
`none` is the caught in-loop `TypeError`.  All fallbacks return `entries`. -/
def _run_filter (parsed : Option JVal) (entries : List LEntry) (is_idx : Bool) :
    List LEntry :=
  match parsed with
  | none => entries
  | some (JVal.obj fields) =>
    match jGetD fields "results" (JVal.arr []) with
    | JVal.arr rs =>
      match processResults entries is_idx rs [] with
      | some rel => rel
      | none => entries
    | _ => entries
  | some _ => entries

/-- C4: a `results` field that is not a list makes the filter return the
whole submitted batch unfiltered — every entry passes through, none is
dropped. -/
theorem run_filter_nonlist_results (fields : List (String × JVal))
    (entries : List LEntry) (is_idx : Bool) (v : JVal)
    (hv : jLookup fields "results" = some v) (hnl : ∀ xs, v ≠ JVal.arr xs) :
    _run_filter (some (JVal.obj fields)) entries is_idx = entries := by
  have hg : jGetD fields "results" (JVal.arr []) = v := by
    unfold jGetD
    rw [hv]
    rfl
  show (match jGetD fields "results" (JVal.arr []) with
    | JVal.arr rs =>
      match processResults entries is_idx rs [] with
      | some rel => rel
      | none => entries
    | _ => entries) = entries
  rw [hg]
  cases v with
  | arr xs => exact absurd rfl (hnl xs)
  | null => rfl
  | bool b => rfl
  | num n => rfl
  | str s => rfl
  | obj f => rfl

/-- Witness for `run_filter_nonlist_results`: a string-valued `results`. -/
theorem run_filter_nonlist_results_witness :
    _run_filter (some (JVal.obj [("results", JVal.str "oops")]))
      [{ core := { title := "t" } }] false = [{ core := { title := "t" } }] :=
  run_filter_nonlist_results [("results", JVal.str "oops")]
    [{ core := { title := "t" } }] false (JVal.str "oops") rfl
    (fun _xs h => JVal.noConfusion h)

/-- Soundness of the selection loop: everything it accumulates is either
carried over from `acc` or is an input entry (with only annotation fields
touched). -/
theorem processResults_mem (entries : List LEntry) (is_idx : Bool) :
    ∀ (rs : List JVal) (acc out : List LEntry),
      processResults entries is_idx rs acc = some out →
      ∀ x ∈ out, x ∈ acc ∨ ∃ e ∈ entries, x.core = e.core := by
  intro rs
  induction rs with
  | nil =>
    intro acc out h x hx
    simp only [processResults, Option.some.injEq] at h
    subst h
    exact Or.inl hx
  | cons r rest ih =>
    intro acc out h x hx
    cases r with
    | obj rf =>
      simp only [processResults] at h
      cases hidx : jToIntIndex (jGetD rf "index" (JVal.num 0)) with
      | none =>
        rw [hidx] at h
        exact absurd h (by simp)
      | some n =>
        rw [hidx] at h
        dsimp only at h
        by_cases hc : 0 ≤ n - 1 ∧ n - 1 < (entries.length : Int) ∧
            jTruthy (jGetD rf "relevant" (JVal.bool false)) = true
        · rw [if_pos hc] at h
          rcases ih _ _ h x hx with hacc | hgood
          · rcases List.mem_append.mp hacc with h1 | h2
            · exact Or.inl h1
            · have hx2 : x = annotate (entries.getD (n - 1).toNat default) rf is_idx := by
                simpa using h2
              have hlt : (n - 1).toNat < entries.length := by omega
              refine Or.inr ⟨entries.getD (n - 1).toNat default, ?_,
                by rw [hx2, annotate_core]⟩
              have hget : entries.getD (n - 1).toNat default = entries[(n - 1).toNat] :=
                List.getD_eq_getElem entries default hlt
              rw [hget]
              exact List.getElem_mem hlt
          · exact Or.inr hgood
        · rw [if_neg hc] at h
          exact ih _ _ h x hx
    | null =>
      simp only [processResults] at h
      exact ih _ _ h x hx
    | bool b =>
      simp only [processResults] at h
      exact ih _ _ h x hx
    | num n =>
      simp only [processResults] at h
      exact ih _ _ h x hx
    | str s =>
      simp only [processResults] at h
      exact ih _ _ h x hx
    | arr l =>
      simp only [processResults] at h
      exact ih _ _ h x hx

/-- C10: every element of the filter's output comes from the input batch —
its fetch-time payload equals that of some input entry, annotations aside —
for every classifier response shape; and the parse-failure fallback returns
exactly the input list. -/
theorem run_filter_selects_from_input (parsed : Option JVal) (entries : List LEntry)
    (is_idx : Bool) :
    (∀ x ∈ _run_filter parsed entries is_idx, ∃ e ∈ entries, x.core = e.core) ∧
    (parsed = none → _run_filter parsed entries is_idx = entries) := by
  have hid : ∀ x ∈ entries, ∃ e ∈ entries, x.core = e.core := fun x hx => ⟨x, hx, rfl⟩
  cases parsed with
  | none => exact ⟨hid, fun _ => rfl⟩
  | some v =>
    refine ⟨?_, fun h => Option.noConfusion h⟩
    cases v with
    | obj fields =>
      show ∀ x ∈ (match jGetD fields "results" (JVal.arr []) with
        | JVal.arr rs =>
          match processResults entries is_idx rs [] with
          | some rel => rel
          | none => entries
        | _ => entries), ∃ e ∈ entries, x.core = e.core
      cases hres : jGetD fields "results" (JVal.arr []) with
      | arr rs =>
        dsimp only
        cases hp : processResults entries is_idx rs [] with
        | none => exact hid
        | some rel =>
          intro x hx
          rcases processResults_mem entries is_idx rs [] rel hp x hx with habs | hgood
          · exact absurd habs (List.not_mem_nil x)
          · exact hgood
      | null => exact hid
      | bool b => exact hid
      | num n => exact hid
      | str s => exact hid
      | obj f => exact hid
    | null => exact hid
    | bool b => exact hid
    | num n => exact hid
    | str s => exact hid
    | arr l => exact hid

/-- Concrete classifier reply used by the C10 witness. -/
def wRf : List (String × JVal) := [("index", JVal.num 1), ("relevant", JVal.bool true)]

def wParsed : Option JVal := some (JVal.obj [("results", JVal.arr [JVal.obj wRf])])

def wEntry : LEntry := { core := { title := "t0", url := "u0" } }

/-- Witness for `run_filter_selects_from_input`: the selected (annotated)
entry of a one-entry batch is the input entry, payload-wise. -/
theorem run_filter_selects_from_input_witness :
    ∃ e ∈ [wEntry], (annotate wEntry wRf false).core = e.core :=
  (run_filter_selects_from_input wParsed [wEntry] false).1
    (annotate wEntry wRf false)
    ((show _run_filter wParsed [wEntry] false = [annotate wEntry wRf false] from rfl) ▸
      List.mem_singleton_self _)

/-! ## Text cleanup and anti-automation detection (helpers.py, config.py) -/

/-- A flushed run of pending newlines: `re.sub(r"\n{3,}", "\n\n", ...)`
collapses maximal runs of three or more to exactly two. -/
def emitNLRun (n : Nat) : List Char :=
  if 3 ≤ n then ['\n', '\n'] else List.replicate n '\n'

def collapseNLGo : List Char → Nat → List Char
  | [], n => emitNLRun n
  | c :: cs, n =>
    if c = '\n' then collapseNLGo cs (n + 1)
    else emitNLRun n ++ c :: collapseNLGo cs 0

def collapseNL (l : List Char) : List Char := collapseNLGo l 0

/-- A flushed run of pending spaces/tabs: `re.sub(r"[ \t]{2,}", " ", ...)`
collapses maximal runs of two or more to a single space. -/
def emitWSRun (pend : List Char) : List Char :=
  if 2 ≤ pend.length then [' '] else pend

def collapseWSGo : List Char → List Char → List Char
  | [], pend => emitWSRun pend
  | c :: cs, pend =>
    if c = ' ' ∨ c = '\t' then collapseWSGo cs (pend ++ [c])
    else emitWSRun pend ++ c :: collapseWSGo cs []

def collapseWS (l : List Char) : List Char := collapseWSGo l []

/-- Python `str.strip()` whitespace (ASCII range). -/
def pyIsSpace (c : Char) : Bool :=
  c = ' ' ∨ c = '\t' ∨ c = '\n' ∨ c = '\r' ∨ c = '\x0b' ∨ c = '\x0c'

def pyStrip (l : List Char) : List Char :=
  ((l.dropWhile pyIsSpace).reverse.dropWhile pyIsSpace).reverse

/-- Embedding of `helpers.clean_text`: collapse newline runs, collapse
space/tab runs, strip. -/
def clean_text (s : String) : String :=
  ⟨pyStrip (collapseWS (collapseNL s.data))⟩

example : clean_text "  a\n\n\n\nb   c  " = "a\n\nb c" := by decide

def lowerStr (s : String) : String := ⟨s.data.map Char.toLower⟩

/-- Python `needle in hay` on character sequences. -/
def listContainsSub (needle : List Char) : List Char → Bool
  | [] => needle.isPrefixOf []
  | c :: rest => needle.isPrefixOf (c :: rest) || listContainsSub needle rest

/-- `config.CLOUDFLARE_MARKERS`. -/
def CLOUDFLARE_MARKERS : List String :=
  ["just a moment", "tunggu sebentar", "un moment",
   "einen moment", "un momento", "aguarde",
   "challenge-platform", "cf-challenge", "cf_chl_opt"]

/-- Embedding of `helpers.is_cloudflare_blocked`: any marker occurs in the
lower-cased first 3000 characters. -/
def is_cloudflare_blocked (text : String) : Bool :=
  let lower := (text.data.take 3000).map Char.toLower
  CLOUDFLARE_MARKERS.any (fun m => listContainsSub m.data lower)

/-- `config.MIN_CONTENT_LENGTH`. -/
def MIN_CONTENT_LENGTH : Nat := 100

/-! ## The content-extraction cascade (scraper.py)

The network, the `newspaper` library, BeautifulSoup and the headless
browser are external; their per-URL outcomes are a `ScrapeEnv` oracle.
The cascade's control flow — status and Cloudflare checks, the
minimum-length acceptance tests, `clean_text` on accepted text, and the
requests-to-browser escalation — is embedded from the source. -/

structure ScrapeEnv where
  /-- `requests.Session().get(url)`: `none` is a raised exception, otherwise
  status code and body text. -/
  httpResp : Option (Nat × String)
  /-- `newspaper.Article.parse().text` for a given HTML document (`""` for
  no text). -/
  npExtract : String → String
  /-- `_extract_from_selectors(html)`: the BeautifulSoup selector walk. -/
  selExtract : String → Option String
  /-- The final page content delivered by `_run_browser_html`'s Playwright
  session (`none` is a navigation/browser failure). -/
  browserHtml : Option String
  /-- `requests.get` of a document URL: status, content-type, and the PDF's
  page texts as extracted by `fitz`. -/
  pdfFetch : Option (Nat × String × List String) := none
  /-- Browser in-page authenticated `fetch()` download (method A). -/
  jsFetchPdf : Option (List String) := none
  /-- Browser real-file download (method B). -/
  downloadPdf : Option (List String) := none

/-- `scraper.extract_pdf_text_from_bytes`: page texts joined with `\n`,
then `clean_text` (the page texts themselves come from the external
`fitz`). -/
def extract_pdf_text_from_bytes (pages : List String) : String :=
  clean_text (String.intercalate "\n" pages)

/-- `scraper.is_pdf_url`: `.endswith(".pdf")` or `"/pdf/" in url`, on the
lower-cased URL. -/
def is_pdf_url (url : String) : Bool :=
  ".pdf".data.reverse.isPrefixOf (lowerStr url).data.reverse ||
    listContainsSub "/pdf/".data (lowerStr url).data

/-- Embedding of `scraper._run_browser_html`'s final extraction block: on
un-blocked content, newspaper text first, selector text second, each
accepted only at `MIN_CONTENT_LENGTH` and returned through `clean_text`. -/
def _run_browser_html (env : ScrapeEnv) : Option String :=
  match env.browserHtml with
  | none => none
  | some html =>
    if html ≠ "" ∧ is_cloudflare_blocked html = false then
      if env.npExtract html ≠ "" ∧ MIN_CONTENT_LENGTH ≤ (env.npExtract html).length then
        some (clean_text (env.npExtract html))
      else
        match env.selExtract html with
        | some t =>
          if t ≠ "" ∧ MIN_CONTENT_LENGTH ≤ t.length then some (clean_text t) else none
        | none => none
    else none

/-- Embedding of `scraper._scrape_html`; the boolean records whether the
stealth-browser fallback was invoked. -/
def _scrape_html (env : ScrapeEnv) : Option String × Bool :=
  match env.httpResp with
  | none => (_run_browser_html env, true)
  | some (status, body) =>
    if status = 200 ∧ is_cloudflare_blocked body = false then
      if env.npExtract body ≠ "" ∧ MIN_CONTENT_LENGTH ≤ (env.npExtract body).length then
        (some (clean_text (env.npExtract body)), false)
      else
        match env.selExtract body with
        | some t =>
          if t ≠ "" ∧ MIN_CONTENT_LENGTH ≤ t.length then (some (clean_text t), false)
          else (_run_browser_html env, true)
        | none => (_run_browser_html env, true)
    else (_run_browser_html env, true)

/-- `text and len(text) >= MIN_CONTENT_LENGTH` acceptance over a cleaned
PDF text, with the next strategy as the fallback. -/
def pdfAccept (pages : List String) (alt : Option String) : Option String :=
  if extract_pdf_text_from_bytes pages ≠ "" ∧
      MIN_CONTENT_LENGTH ≤ (extract_pdf_text_from_bytes pages).length then
    some (extract_pdf_text_from_bytes pages)
  else alt

/-- Embedding of `scraper._run_browser_pdf`: in-page fetch (method A), then
real download (method B). -/
def _run_browser_pdf (env : ScrapeEnv) : Option String :=
  match env.jsFetchPdf with
  | some pages =>
    pdfAccept pages
      (match env.downloadPdf with
       | some pages2 => pdfAccept pages2 none
       | none => none)
  | none =>
    match env.downloadPdf with
    | some pages2 => pdfAccept pages2 none
    | none => none

/-- Embedding of `scraper._scrape_pdf`: direct download (200 and a `pdf`
content type) then browser escalation. -/
def _scrape_pdf (env : ScrapeEnv) : Option String :=
  match env.pdfFetch with
  | some (status, ctype, pages) =>
    if status = 200 ∧ listContainsSub "pdf".data (lowerStr ctype).data = true then
      pdfAccept pages (_run_browser_pdf env)
    else _run_browser_pdf env
  | none => _run_browser_pdf env

/-- Embedding of `scraper.scrape_article`: dispatch on URL shape. -/
def scrape_article (env : ScrapeEnv) (url : String) : Option String :=
  if is_pdf_url url then _scrape_pdf env else (_scrape_html env).1

/-- The content-substitution step at the head of `llm.analyze_single`:
scrape, and fall back to `f"{title}\n\n{rss_summary}"` when the result is
missing, empty or below the threshold. -/
def analyze_single_content (env : ScrapeEnv) (url title rss_summary : String) : String :=
  match scrape_article env url with
  | none => title ++ "\n\n" ++ rss_summary
  | some c =>
    if c = "" ∨ c.length < MIN_CONTENT_LENGTH then title ++ "\n\n" ++ rss_summary
    else c

theorem pdfAccept_len (pages : List String) (alt : Option String)
    (halt : alt = none ∨ ∃ u, alt = some u ∧ MIN_CONTENT_LENGTH ≤ u.length) :
    pdfAccept pages alt = none ∨
      ∃ u, pdfAccept pages alt = some u ∧ MIN_CONTENT_LENGTH ≤ u.length := by
  unfold pdfAccept
  by_cases h : extract_pdf_text_from_bytes pages ≠ "" ∧
      MIN_CONTENT_LENGTH ≤ (extract_pdf_text_from_bytes pages).length
  · rw [if_pos h]
    exact Or.inr ⟨_, rfl, h.2⟩
  · rw [if_neg h]
    exact halt

theorem _run_browser_pdf_len (env : ScrapeEnv) :
    _run_browser_pdf env = none ∨
      ∃ u, _run_browser_pdf env = some u ∧ MIN_CONTENT_LENGTH ≤ u.length := by
  have hdl : (match env.downloadPdf with
      | some pages2 => pdfAccept pages2 none
      | none => none) = none ∨
      ∃ u, (match env.downloadPdf with
        | some pages2 => pdfAccept pages2 none
        | none => none) = some u ∧ MIN_CONTENT_LENGTH ≤ u.length := by
    cases env.downloadPdf with
    | none => exact Or.inl rfl
    | some pages2 => exact pdfAccept_len pages2 none (Or.inl rfl)
  unfold _run_browser_pdf
  cases env.jsFetchPdf with
  | none => exact hdl
  | some pages => exact pdfAccept_len pages _ hdl

theorem _scrape_pdf_len (env : ScrapeEnv) :
    _scrape_pdf env = none ∨
      ∃ u, _scrape_pdf env = some u ∧ MIN_CONTENT_LENGTH ≤ u.length := by
  unfold _scrape_pdf
  cases env.pdfFetch with
  | none => exact _run_browser_pdf_len env
  | some r =>
    obtain ⟨status, ctype, pages⟩ := r
    dsimp only
    by_cases hc : status = 200 ∧ listContainsSub "pdf".data (lowerStr ctype).data = true
    · rw [if_pos hc]
      exact pdfAccept_len pages _ (_run_browser_pdf_len env)
    · rw [if_neg hc]
      exact _run_browser_pdf_len env

theorem _run_browser_html_shape (env : ScrapeEnv) :
    _run_browser_html env = none ∨
      ∃ raw, MIN_CONTENT_LENGTH ≤ raw.length ∧
        _run_browser_html env = some (clean_text raw) := by
  unfold _run_browser_html
  cases env.browserHtml with
  | none => exact Or.inl rfl
  | some html =>
    dsimp only
    by_cases hcf : html ≠ "" ∧ is_cloudflare_blocked html = false
    · rw [if_pos hcf]
      by_cases hnp : env.npExtract html ≠ "" ∧
          MIN_CONTENT_LENGTH ≤ (env.npExtract html).length
      · rw [if_pos hnp]
        exact Or.inr ⟨_, hnp.2, rfl⟩
      · rw [if_neg hnp]
        cases env.selExtract html with
        | none => exact Or.inl rfl
        | some t =>
          dsimp only
          by_cases ht : t ≠ "" ∧ MIN_CONTENT_LENGTH ≤ t.length
          · rw [if_pos ht]
            exact Or.inr ⟨t, ht.2, rfl⟩
          · rw [if_neg ht]
            exact Or.inl rfl
    · rw [if_neg hcf]
      exact Or.inl rfl

theorem _scrape_html_shape (env : ScrapeEnv) :
    (_scrape_html env).1 = none ∨
      ∃ raw, MIN_CONTENT_LENGTH ≤ raw.length ∧
        (_scrape_html env).1 = some (clean_text raw) := by
  unfold _scrape_html
  cases env.httpResp with
  | none => exact _run_browser_html_shape env
  | some r =>
    obtain ⟨status, body⟩ := r
    dsimp only
    by_cases hok : status = 200 ∧ is_cloudflare_blocked body = false
    · rw [if_pos hok]
      by_cases hnp : env.npExtract body ≠ "" ∧
          MIN_CONTENT_LENGTH ≤ (env.npExtract body).length
      · rw [if_pos hnp]
        exact Or.inr ⟨_, hnp.2, rfl⟩
      · rw [if_neg hnp]
        cases env.selExtract body with
        | none => exact _run_browser_html_shape env
        | some t =>
          dsimp only
          by_cases ht : t ≠ "" ∧ MIN_CONTENT_LENGTH ≤ t.length
          · rw [if_pos ht]
            exact Or.inr ⟨t, ht.2, rfl⟩
          · rw [if_neg ht]
            exact _run_browser_html_shape env
    · rw [if_neg hok]
      exact _run_browser_html_shape env

/-- C7 (amended): `scrape_article` returns a failure, or — on the document
(PDF) pipeline — a text of length ≥ `MIN_CONTENT_LENGTH`, or — on the HTML
pipeline — the whitespace-normalized (`clean_text`) form of an extracted
text whose *pre-normalization* length met the threshold; the normalized
HTML text itself may end up shorter than the threshold. -/
theorem scrape_article_length_correct (env : ScrapeEnv) (url : String) :
    scrape_article env url = none ∨
    (is_pdf_url url = true ∧
      ∃ t, scrape_article env url = some t ∧ MIN_CONTENT_LENGTH ≤ t.length) ∨
    (is_pdf_url url = false ∧
      ∃ raw, MIN_CONTENT_LENGTH ≤ raw.length ∧
        scrape_article env url = some (clean_text raw)) := by
  unfold scrape_article
  by_cases hp : is_pdf_url url = true
  · rw [if_pos hp]
    rcases _scrape_pdf_len env with h | ⟨u, hu, hlen⟩
    · exact Or.inl h
    · exact Or.inr (Or.inl ⟨hp, u, hu, hlen⟩)
  · rw [if_neg hp]
    rcases _scrape_html_shape env with h | ⟨raw, hlen, hr⟩
    · exact Or.inl h
    · exact Or.inr (Or.inr ⟨by simpa using hp, raw, hlen, hr⟩)

/-- C7 counterexample: the lightweight fetch succeeds with a newspaper text
of exactly 100 characters (50 letters + 50 trailing spaces); the accepted
result is its `clean_text` form — 50 characters, a successful non-empty
extraction *below* the minimum-content threshold. -/
def c7Env : ScrapeEnv :=
  { httpResp := some (200, "plain article page")
    npExtract := fun _ =>
      "xxxxxxxxxxxxxxxxxxxxxxxxxxxxxxxxxxxxxxxxxxxxxxxxxx                                                  "
    selExtract := fun _ => none
    browserHtml := none }

theorem scrape_article_short_success_counterexample :
    scrape_article c7Env "https://example.com/a" =
      some "xxxxxxxxxxxxxxxxxxxxxxxxxxxxxxxxxxxxxxxxxxxxxxxxxx" ∧
    ("xxxxxxxxxxxxxxxxxxxxxxxxxxxxxxxxxxxxxxxxxxxxxxxxxx" : String) ≠ "" ∧
    ("xxxxxxxxxxxxxxxxxxxxxxxxxxxxxxxxxxxxxxxxxxxxxxxxxx" : String).length <
      MIN_CONTENT_LENGTH := by
  refine ⟨by decide, by decide, by decide⟩

/-- C8: extraction failure never propagates past the boundary — the scrape
returns a value or `none` (the model is total; every Python exception path
is caught inside the cascade), and the analysis caller substitutes
`title + "\n\n" + rss_summary` exactly when the scrape fails, returns empty
text or text below the threshold, so analysis always proceeds with some
content. -/
theorem extraction_failure_never_aborts (env : ScrapeEnv) (url title rss_summary : String) :
    (scrape_article env url = none →
      analyze_single_content env url title rss_summary = title ++ "\n\n" ++ rss_summary) ∧
    (∀ c, scrape_article env url = some c → c.length < MIN_CONTENT_LENGTH →
      analyze_single_content env url title rss_summary = title ++ "\n\n" ++ rss_summary) ∧
    (∀ c, scrape_article env url = some c → MIN_CONTENT_LENGTH ≤ c.length →
      analyze_single_content env url title rss_summary = c) ∧
    (analyze_single_content env url title rss_summary = title ++ "\n\n" ++ rss_summary ∨
      ∃ c, scrape_article env url = some c ∧
        analyze_single_content env url title rss_summary = c) := by
  unfold analyze_single_content
  cases hs : scrape_article env url with
  | none =>
    refine ⟨fun _ => rfl, ?_, ?_, Or.inl rfl⟩
    · intro c hc
      exact absurd hc (by simp)
    · intro c hc
      exact absurd hc (by simp)
  | some c0 =>
    dsimp only
    by_cases hshort : c0 = "" ∨ c0.length < MIN_CONTENT_LENGTH
    · rw [if_pos hshort]
      refine ⟨fun h => absurd h (by simp), fun c _ _ => rfl, ?_, Or.inl rfl⟩
      intro c hc hlen
      injection hc with hc
      subst hc
      rcases hshort with he | hl
      · rw [he] at hlen
        exact absurd hlen (by decide)
      · omega
    · rw [if_neg hshort]
      refine ⟨fun h => absurd h (by simp), ?_, ?_, Or.inr ⟨c0, rfl, rfl⟩⟩
      · intro c hc hlen
        injection hc with hc
        subst hc
        exact absurd (Or.inr hlen) hshort
      · intro c hc _
        exact Option.some.inj hc

/-- Concrete environment for the C8 witness: everything fails. -/
def c8Env : ScrapeEnv :=
  { httpResp := none
    npExtract := fun _ => ""
    selExtract := fun _ => none
    browserHtml := none }

/-- Witness for `extraction_failure_never_aborts`: a total extraction
failure substitutes title + summary. -/
theorem extraction_failure_never_aborts_witness :
    analyze_single_content c8Env "https://example.com/x" "Judul" "Ringkas" =
      "Judul" ++ "\n\n" ++ "Ringkas" :=
  (extraction_failure_never_aborts c8Env "https://example.com/x" "Judul" "Ringkas").1
    (by decide)

/-- C9: when the lightweight `requests` fetch returns 200 un-blocked HTML
and the newspaper heuristic (or the selector fallback over that same
fetched HTML) already meets the minimum length, the stealth-browser
fallback is never invoked — `_scrape_html` stops at the first strategy
whose result meets the threshold. -/
theorem cascade_short_circuit (env : ScrapeEnv) (body : String)
    (hresp : env.httpResp = some (200, body))
    (hcf : is_cloudflare_blocked body = false) :
    (MIN_CONTENT_LENGTH ≤ (env.npExtract body).length → (_scrape_html env).2 = false) ∧
    (∀ t, env.selExtract body = some t → MIN_CONTENT_LENGTH ≤ t.length →
      (_scrape_html env).2 = false) := by
  have hok : (200 = 200 ∧ is_cloudflare_blocked body = false) := ⟨rfl, hcf⟩
  unfold _scrape_html
  rw [hresp]
  dsimp only
  rw [if_pos hok]
  constructor
  · intro hnp
    have hne : env.npExtract body ≠ "" := by
      intro he
      rw [he] at hnp
      exact absurd hnp (by decide)
    rw [if_pos ⟨hne, hnp⟩]
  · intro t hsel hlen
    by_cases hnp : env.npExtract body ≠ "" ∧ MIN_CONTENT_LENGTH ≤ (env.npExtract body).length
    · rw [if_pos hnp]
    · rw [if_neg hnp, hsel]
      dsimp only
      have hne : t ≠ "" := by
        intro he
        rw [he] at hlen
        exact absurd hlen (by decide)
      rw [if_pos ⟨hne, hlen⟩]

/-- Concrete environment for the C9 witness: the lightweight fetch already
yields a long newspaper text. -/
def c9Env : ScrapeEnv :=
  { httpResp := some (200, "plain page")
    npExtract := fun _ =>
      "aaaaaaaaaaaaaaaaaaaaaaaaaaaaaaaaaaaaaaaaaaaaaaaaaaaaaaaaaaaaaaaaaaaaaaaaaaaaaaaaaaaaaaaaaaaaaaaaaaaaaaaaaaaaaaaaaaaa"
    selExtract := fun _ => none
    browserHtml := none }

/-- Witness for `cascade_short_circuit`. -/
theorem cascade_short_circuit_witness : (_scrape_html c9Env).2 = false :=
  (cascade_short_circuit c9Env "plain page" rfl (by decide)).1 (by decide)

/-! ## Phase 4 of the collection cycle: sorted persistence and the
notification list (commands.cmd_collect) -/

structure AttLink where
  url : String
  is_lampiran : Bool
deriving DecidableEq, Repr, Inhabited

/-- A classified-relevant parsed entry as Phase 4 reads it (its
`published_at` string is the `parse_published_date` output). -/
structure CEntry where
  title : String
  url : String
  published_at : String
  is_lapkeu : Bool := false
  attachments : List AttLink := []
deriving DecidableEq, Repr, Inhabited

/-- Python string comparison: code-point lexicographic `a <= b`. -/
def charListLe : List Char → List Char → Bool
  | [], _ => true
  | _ :: _, [] => false
  | a :: as, b :: bs =>
    if a.toNat < b.toNat then true
    else if b.toNat < a.toNat then false
    else charListLe as bs

def pyStrLe (a b : String) : Bool := charListLe a.data b.data

/-- Stable descending insertion for
`relevant.sort(key=lambda x: x.get("published_at", "") or "", reverse=True)`. -/
def insertDescBy (key : CEntry → String) (x : CEntry) : List CEntry → List CEntry
  | [] => [x]
  | y :: ys => if pyStrLe (key y) (key x) then x :: y :: ys else y :: insertDescBy key x ys

def pySortDesc (key : CEntry → String) : List CEntry → List CEntry
  | [] => []
  | x :: xs => insertDescBy key x (pySortDesc key xs)

/-- The `_is_lapkeu` URL swap: replace the record URL by the first
non-supplementary attachment's URL, if any. -/
def record_url (e : CEntry) : String :=
  if e.is_lapkeu then
    match e.attachments.find? (fun a => !a.is_lampiran) with
    | some a => a.url
    | none => e.url
  else e.url

/-- The record dict built in the Phase-4 loop (verified fields only). -/
def recordOf (e : CEntry) : NewsRecord :=
  { title := e.title, url := record_url e, published_at := e.published_at }

/-- The Phase-4 store loop: save each record in order; on success re-fetch
`store.get_by_id(generate_id(entry["url"]))` — note: the *original* entry
URL, not the possibly lapkeu-swapped record URL — and collect the fetched
record for the notification boundary.  Returns the final store, the list
of records written, and `inserted_records`. -/
def phase4Go (store : JSONStore) : List CEntry → JSONStore × List NewsRecord × List NewsRecord
  | [] => (store, [], [])
  | e :: rest =>
    let res := store.save (recordOf e)
    if res.1 then
      let next := phase4Go res.2 rest
      (next.1,
        { recordOf e with id := generate_id (recordOf e).url } :: next.2.1,
        match res.2.get_by_id (generate_id e.url) with
        | some r0 => r0 :: next.2.2
        | none => next.2.2)
    else
      let next := phase4Go res.2 rest
      (next.1, next.2.1, next.2.2)

/-- Phases 3½–4 of `cmd_collect`: the global cross-source descending
re-sort, then the sequential store loop. -/
def cmd_collect_phase4 (store : JSONStore) (relevant : List CEntry) :
    JSONStore × List NewsRecord × List NewsRecord :=
  phase4Go store (pySortDesc (fun e => e.published_at) relevant)

/-- Descending (newest-first) order of a timestamp-string sequence. -/
def descendingBy (l : List String) : Prop := l.Pairwise (fun a b => pyStrLe b a = true)

/-- The C5 failing store: it already holds a record whose URL equals the
lapkeu entry's *original* primary link, under a far-future publish time. -/
def c5Store : JSONStore :=
  ⟨[{ title := "zzzz", url := "U", published_at := "2030-01-01T00:00:00+00:00", id := "U" }]⟩

def c5E1 : CEntry :=
  { title := "aaaa", url := "A", published_at := "2024-06-01T00:00:00+00:00" }

/-- A lapkeu disclosure whose record URL is swapped to its attachment `P`,
while the notification re-fetch keys on the original URL `U`. -/
def c5E2 : CEntry :=
  { title := "bbbb", url := "U", published_at := "2024-05-01T00:00:00+00:00",
    is_lapkeu := true, attachments := [⟨"P", false⟩] }

/-- C5 at the failing input: the two records are *written* in descending
publish-time order, but `inserted_records` — the list handed to the
notification boundary — re-fetches by the original URL's id, picks up the
pre-existing record, and is **not** in descending publish-time order (and
contains a record that was not inserted this cycle). -/
theorem cmd_collect_notification_order_bug :
    ((cmd_collect_phase4 c5Store [c5E1, c5E2]).2.1.map (fun r => r.published_at) =
      ["2024-06-01T00:00:00+00:00", "2024-05-01T00:00:00+00:00"]) ∧
    ((cmd_collect_phase4 c5Store [c5E1, c5E2]).2.2.map (fun r => r.published_at) =
      ["2024-06-01T00:00:00+00:00", "2030-01-01T00:00:00+00:00"]) ∧
    ¬ descendingBy
        ((cmd_collect_phase4 c5Store [c5E1, c5E2]).2.2.map (fun r => r.published_at)) := by
  refine ⟨by decide, by decide, ?_⟩
  intro hpair
  unfold descendingBy at hpair
  rw [show (cmd_collect_phase4 c5Store [c5E1, c5E2]).2.2.map (fun r => r.published_at) =
      ["2024-06-01T00:00:00+00:00", "2030-01-01T00:00:00+00:00"] from by decide] at hpair
  have h2 := (List.pairwise_cons.mp hpair).1 _ (List.mem_singleton_self _)
  exact absurd h2 (by decide)

/-! ## Watermark discipline of a collection cycle (commands.cmd_collect,
state.py)

The cycle is modelled as its effect trace over per-source fetch outcomes
(the oracle): the sequential fetches, then — only when some source yielded
new entries — the classify/persist block and one whole-map `save_state`.
-/

structure WSource where
  id : String
  name : String := ""
deriving DecidableEq, Repr, Inhabited

/-- A per-source watermark entry
(`{"last_top_link": ..., "last_scraped_at": ..., "name": ...}`). -/
structure Watermark where
  last_top_link : Option String := none
  last_scraped_at : String := ""
  name : String := ""
deriving DecidableEq, Repr, Inhabited

/-- Outcome of one source's fetch: a raised `FetchError` (the `except`
branch logs and `continue`s) or the parsed entries. -/
inductive FetchOutcome where
  | failure
  | success (entries : List FeedEntry)
deriving DecidableEq, Repr, Inhabited

/-- The state dict, as an association list with unique keys. -/
abbrev StateMap := List (String × Watermark)

def stateLookup : StateMap → String → Option Watermark
  | [], _ => none
  | p :: rest, sid => if p.1 = sid then some p.2 else stateLookup rest sid

/-- `state[sid] = {...}`: replace the existing entry or append. -/
def stateSet : StateMap → String → Watermark → StateMap
  | [], sid, w => [(sid, w)]
  | p :: rest, sid, w => if p.1 = sid then (sid, w) :: rest else p :: stateSet rest sid w

/-- The source-scan loop: skip failed fetches and empty feeds, diff against
the stored watermark, and accumulate sources with new entries
(`all_new`). -/
def scanSources (st : StateMap) :
    List (WSource × FetchOutcome) → List (WSource × List FeedEntry × Option String)
  | [] => []
  | (_, FetchOutcome.failure) :: rest => scanSources st rest
  | (src, FetchOutcome.success entries) :: rest =>
    if entries = [] then scanSources st rest
    else
      let last := (stateLookup st src.id).bind (fun w => w.last_top_link)
      let diff := get_new_entries entries last
      if diff.1 = [] then scanSources st rest
      else (src, diff.1, diff.2) :: scanSources st rest

/-- The end-of-cycle state update: `state[sid] = {last_top_link, ...}` for
every `all_new` source. -/
def updateState : StateMap → List (WSource × List FeedEntry × Option String) → String → StateMap
  | st, [], _ => st
  | st, p :: rest, now => updateState (stateSet st p.1.id ⟨p.2.2, now, p.1.name⟩) rest now

/-- One observable effect of `cmd_collect`. -/
inductive CycleEv where
  | fetchTried (sid : String)
  | persistPhase
  | saveState (st : StateMap)
deriving DecidableEq, Repr, Inhabited

/-- The effect trace of one `cmd_collect` cycle: every source is fetched in
registry order; with no new entries anywhere the cycle returns early;
otherwise the classify/persist phases run and `save_state` is called once,
with the whole updated map, at cycle end. -/
def cmd_collect_trace (inputs : List (WSource × FetchOutcome)) (st : StateMap)
    (now : String) : List CycleEv :=
  (inputs.map (fun p => CycleEv.fetchTried p.1.id)) ++
    (if scanSources st inputs = [] then []
     else [CycleEv.persistPhase,
       CycleEv.saveState (updateState st (scanSources st inputs) now)])

def isSaveState : CycleEv → Bool
  | CycleEv.saveState _ => true
  | _ => false

theorem stateLookup_set_ne (st : StateMap) (k sid : String) (w : Watermark)
    (h : sid ≠ k) : stateLookup (stateSet st k w) sid = stateLookup st sid := by
  induction st with
  | nil =>
    simp only [stateSet, stateLookup]
    rw [if_neg (fun he => h he.symm)]
  | cons p rest ih =>
    by_cases hp : p.1 = k
    · simp only [stateSet, if_pos hp, stateLookup]
      rw [if_neg (fun he : k = sid => h he.symm),
        if_neg (fun he : p.1 = sid => h (he ▸ hp))]
    · simp only [stateSet, if_neg hp, stateLookup]
      by_cases hps : p.1 = sid
      · rw [if_pos hps, if_pos hps]
      · rw [if_neg hps, if_neg hps]
        exact ih

theorem updateState_lookup_ne (allNew : List (WSource × List FeedEntry × Option String)) :
    ∀ (st : StateMap) (now sid : String),
      sid ∉ allNew.map (fun p => p.1.id) →
      stateLookup (updateState st allNew now) sid = stateLookup st sid := by
  induction allNew with
  | nil =>
    intro st now sid _
    rfl
  | cons p rest ih =>
    intro st now sid hnot
    simp only [List.map_cons, List.mem_cons] at hnot
    push_neg at hnot
    simp only [updateState]
    rw [ih _ now sid hnot.2]
    exact stateLookup_set_ne st p.1.id sid _ hnot.1

theorem scanSources_sources (st : StateMap) :
    ∀ (inputs : List (WSource × FetchOutcome)) (q : WSource × List FeedEntry × Option String),
      q ∈ scanSources st inputs →
      ∃ entries, (q.1, FetchOutcome.success entries) ∈ inputs := by
  intro inputs
  induction inputs with
  | nil =>
    intro q hq
    simp [scanSources] at hq
  | cons p rest ih =>
    intro q hq
    match p with
    | (src, FetchOutcome.failure) =>
      simp only [scanSources] at hq
      obtain ⟨es, hmem⟩ := ih q hq
      exact ⟨es, List.mem_cons_of_mem _ hmem⟩
    | (src, FetchOutcome.success entries) =>
      simp only [scanSources] at hq
      by_cases he : entries = []
      · rw [if_pos he] at hq
        obtain ⟨es, hmem⟩ := ih q hq
        exact ⟨es, List.mem_cons_of_mem _ hmem⟩
      · rw [if_neg he] at hq
        by_cases hd : (get_new_entries entries
            ((stateLookup st src.id).bind (fun w => w.last_top_link))).1 = []
        · rw [if_pos hd] at hq
          obtain ⟨es, hmem⟩ := ih q hq
          exact ⟨es, List.mem_cons_of_mem _ hmem⟩
        · rw [if_neg hd] at hq
          rcases List.mem_cons.mp hq with hq1 | hq2
          · subst hq1
            exact ⟨entries, List.mem_cons_self _ _⟩
          · obtain ⟨es, hmem⟩ := ih q hq2
            exact ⟨es, List.mem_cons_of_mem _ hmem⟩

/-- C6 (amended): watermarks are persisted *at most* once per cycle —
exactly once, as the final effect after the classify/persist phase, when
some source yields new entries, and zero times when none does (the early
return) — and a fetch-failed source (no source of the same registry id
succeeding; ids are unique in the registry) keeps its stored watermark
entry unchanged in whatever map is persisted. -/
theorem cmd_collect_watermark_correct (inputs : List (WSource × FetchOutcome))
    (st : StateMap) (now : String) (src : WSource) :
    ((cmd_collect_trace inputs st now).countP isSaveState ≤ 1) ∧
    (scanSources st inputs = [] →
      (cmd_collect_trace inputs st now).countP isSaveState = 0) ∧
    (scanSources st inputs ≠ [] →
      (cmd_collect_trace inputs st now).countP isSaveState = 1 ∧
      (cmd_collect_trace inputs st now).getLast? =
        some (CycleEv.saveState (updateState st (scanSources st inputs) now))) ∧
    ((src, FetchOutcome.failure) ∈ inputs →
      (∀ p ∈ inputs, p.1.id = src.id → p.2 = FetchOutcome.failure) →
      ∀ st', CycleEv.saveState st' ∈ cmd_collect_trace inputs st now →
        stateLookup st' src.id = stateLookup st src.id) := by
  have hfz : (inputs.map (fun p => CycleEv.fetchTried p.1.id)).countP isSaveState = 0 := by
    rw [List.countP_eq_zero]
    intro ev hev
    obtain ⟨p, _, rfl⟩ := List.mem_map.mp hev
    simp [isSaveState]
  unfold cmd_collect_trace
  by_cases hempty : scanSources st inputs = []
  · rw [if_pos hempty, List.append_nil]
    refine ⟨by rw [hfz]; exact Nat.zero_le 1, fun _ => hfz, fun hne => absurd hempty hne, ?_⟩
    intro _ _ st' hmem
    obtain ⟨p, _, habs⟩ := List.mem_map.mp hmem
    exact absurd habs (by simp)
  · rw [if_neg hempty]
    have hcount : ((inputs.map (fun p => CycleEv.fetchTried p.1.id)) ++
        [CycleEv.persistPhase,
          CycleEv.saveState (updateState st (scanSources st inputs) now)]).countP
          isSaveState = 1 := by
      rw [List.countP_append, hfz]
      rfl
    refine ⟨le_of_eq hcount, fun habs => absurd habs hempty, fun _ => ⟨hcount, ?_⟩, ?_⟩
    · rw [List.getLast?_append]
      rfl
    · intro hfail huniq st' hmem
      have hst' : st' = updateState st (scanSources st inputs) now := by
        rcases List.mem_append.mp hmem with h1 | h2
        · obtain ⟨p, _, habs⟩ := List.mem_map.mp h1
          exact absurd habs (by simp)
        · rcases List.mem_cons.mp h2 with h3 | h4
          · exact absurd h3 (by simp)
          · rcases List.mem_cons.mp h4 with h5 | h6
            · injection h5
            · exact absurd h6 (List.not_mem_nil _)
      subst hst'
      apply updateState_lookup_ne
      intro hmemid
      obtain ⟨q, hq, hid⟩ := List.mem_map.mp hmemid
      obtain ⟨es, hmemq⟩ := scanSources_sources st inputs q hq
      have := huniq (q.1, FetchOutcome.success es) hmemq hid
      exact FetchOutcome.noConfusion this

/-- C6 counterexample: a cycle whose only source raises a fetch error
returns early and persists watermarks *zero* times — refuting "persists
watermarks exactly once" for such cycles. -/
theorem cmd_collect_no_save_counterexample :
    ¬ ((cmd_collect_trace [(⟨"1", "Src"⟩, FetchOutcome.failure)]
        [("1", ⟨some "x", "t0", "Src"⟩)] "now").countP isSaveState = 1) := by
  decide

/-- Inputs for the C6 witness: source 1 fails its fetch, source 2 yields a
new entry. -/
def wInputs : List (WSource × FetchOutcome) :=
  [(⟨"1", "A"⟩, FetchOutcome.failure),
   (⟨"2", "B"⟩, FetchOutcome.success [⟨some "l", "t"⟩])]

def wSt : StateMap := [("1", ⟨some "x", "t0", "A"⟩)]

/-- Witness for `cmd_collect_watermark_correct`: the persisted map keeps the
failed source's watermark entry untouched. -/
theorem cmd_collect_watermark_correct_witness :
    stateLookup (updateState wSt (scanSources wSt wInputs) "now") "1" =
      stateLookup wSt "1" :=
  (cmd_collect_watermark_correct wInputs wSt "now" ⟨"1", "A"⟩).2.2.2
    (by decide) (by decide) (updateState wSt (scanSources wSt wInputs) "now")
    (by decide)
